import Mathlib

/-!
Verification of the realtime device-ingestion pipeline of the
hemodialysis monitoring frontend.

The development shallowly embeds the three core pieces of the code base:

* `src/lib/serialAdapter.ts` — the `LineBreakTransformer` stream
  transformer (carry-based line splitting over text chunks);
* `src/modules/Monitoring/monitoring.tsx` — the NDJSON line parser
  `parseLine` (JSON subset decoder, alias fallback, finiteness check),
  the `clamp` helper, and the body of `readLoop` (autostart, ring
  buffer append, throttled persistence forward).

JavaScript strings are embedded as `List Char`, JSON/JS numbers as `ℚ`
(the inputs of interest are decimal literals; `none` marks a value that
is not a finite number, i.e. JavaScript `NaN`/`Infinity`), and
millisecond clock values (`Date.now()`) as `Int`.
-/

set_option maxRecDepth 8000

namespace Hemo

/-! ## Byte-to-line transport: `LineBreakTransformer` (serialAdapter.ts)

`transform` appends the chunk to the carry, splits on the regular
expression `\r?\n`, keeps the final (possibly incomplete) segment as the
new carry and enqueues every fully terminated non-empty segment.
`flush` discards the carry.

`splitCRLF s` returns the pair (fully terminated segments of `s`,
trailing segment after the last terminator); this is exactly
`s.split(/\r?\n/)` with the last element of the JavaScript result
separated out.  A `\r` immediately followed by `\n` is part of the
terminator; a `\r` not followed by `\n` is ordinary text. -/

/-- Prepend character `c` to the first completed segment of `p`, or to
the trailing segment if no segment has been completed yet. -/
def consChar (c : Char) (p : List (List Char) × List Char) :
    List (List Char) × List Char :=
  match p.1 with
  | [] => ([], c :: p.2)
  | l :: ls => ((c :: l) :: ls, p.2)

/-- Split on `\r?\n`: completed (terminated) segments, and the trailing
segment after the last terminator. -/
def splitCRLF : List Char → List (List Char) × List Char
  | [] => ([], [])
  | c :: cs =>
    if c = '\n' then ([] :: (splitCRLF cs).1, (splitCRLF cs).2)
    else if c = '\r' ∧ cs.head? = some '\n' then splitCRLF cs
    else consChar c (splitCRLF cs)

/-- One `transform(chunk)` call of `LineBreakTransformer`: returns the
new carry and the enqueued lines (non-empty completed segments of
`carry ++ chunk`, in order). -/
def lbtTransform (carry chunk : List Char) : List Char × List (List Char) :=
  let p := splitCRLF (carry ++ chunk)
  (p.2, p.1.filter (fun l => !l.isEmpty))

/-- Run the transformer over a whole chunk sequence starting from the
given carry; returns the concatenation of all enqueued lines and the
final carry (which `flush` discards, so the first component is the
entire output of the stream). -/
def lbtRun : List Char → List (List Char) → List (List Char) × List Char
  | carry, [] => ([], carry)
  | carry, chunk :: chunks =>
    let t := lbtTransform carry chunk
    let rest := lbtRun t.1 chunks
    (t.2 ++ rest.1, rest.2)

/-- All lines emitted by the transport for a chunk sequence (the carry
left at end-of-input is discarded by `flush`). -/
def lbtEmit (chunks : List (List Char)) : List (List Char) :=
  (lbtRun [] chunks).1

/-- A line terminator on the wire: `\n` or `\r\n`. -/
def Terminator (t : List Char) : Prop := t = ['\n'] ∨ t = ['\r', '\n']

/-- Line content free of terminator characters. -/
def CleanLine (l : List Char) : Prop := '\n' ∉ l ∧ '\r' ∉ l

instance (l : List Char) : Decidable (CleanLine l) := by
  unfold CleanLine; infer_instance

instance (t : List Char) : Decidable (Terminator t) := by
  unfold Terminator; infer_instance

/-- `assemble ps frag` concatenates terminated lines and a trailing
fragment into one byte stream. -/
def assemble : List (List Char × List Char) → List Char → List Char
  | [], frag => frag
  | (l, t) :: ps, frag => l ++ (t ++ assemble ps frag)

/-! Basic lemmas about `splitCRLF` and `consChar`. -/

theorem splitCRLF_cons_newline (cs : List Char) :
    splitCRLF ('\n' :: cs) = ([] :: (splitCRLF cs).1, (splitCRLF cs).2) := by
  rw [splitCRLF, if_pos rfl]

theorem splitCRLF_cons_cr_nl (cs : List Char) (h : cs.head? = some '\n') :
    splitCRLF ('\r' :: cs) = splitCRLF cs := by
  rw [splitCRLF, if_neg (by decide), if_pos ⟨rfl, h⟩]

theorem splitCRLF_cons_other (c : Char) (cs : List Char) (h1 : ¬c = '\n')
    (h2 : ¬(c = '\r' ∧ cs.head? = some '\n')) :
    splitCRLF (c :: cs) = consChar c (splitCRLF cs) := by
  rw [splitCRLF, if_neg h1, if_neg h2]

theorem consChar_fst_nil {p : List (List Char) × List Char} (c : Char)
    (h : p.1 = []) : consChar c p = ([], c :: p.2) := by
  simp [consChar, h]

theorem consChar_fst_cons {p : List (List Char) × List Char} (c : Char)
    {l : List Char} {ls : List (List Char)} (h : p.1 = l :: ls) :
    consChar c p = ((c :: l) :: ls, p.2) := by
  simp [consChar, h]

theorem splitCRLF_no_completed {s : List Char} (h : (splitCRLF s).1 = []) :
    (splitCRLF s).2 = s := by
  induction s with
  | nil => rfl
  | cons c cs ih =>
    by_cases hn : c = '\n'
    · subst hn; rw [splitCRLF_cons_newline] at h; simp at h
    · by_cases hr : c = '\r' ∧ cs.head? = some '\n'
      · obtain ⟨hc, hh⟩ := hr
        subst hc
        rcases cs with _ | ⟨c2, cs'⟩
        · simp at hh
        · simp only [List.head?_cons, Option.some.injEq] at hh
          subst hh
          rw [splitCRLF_cons_cr_nl ('\n' :: cs') rfl, splitCRLF_cons_newline] at h
          simp at h
      · rw [splitCRLF_cons_other c cs hn hr] at h ⊢
        rcases hsp : (splitCRLF cs).1 with _ | ⟨l, ls⟩
        · rw [consChar_fst_nil c hsp]
          simp [ih hsp]
        · rw [consChar_fst_cons c hsp] at h
          simp at h

theorem splitCRLF_append (x b : List Char) :
    splitCRLF (x ++ b) =
      ((splitCRLF x).1 ++ (splitCRLF ((splitCRLF x).2 ++ b)).1,
        (splitCRLF ((splitCRLF x).2 ++ b)).2) := by
  induction x with
  | nil => simp [splitCRLF]
  | cons c x' ih =>
    by_cases hn : c = '\n'
    · subst hn
      rw [List.cons_append, splitCRLF_cons_newline, splitCRLF_cons_newline, ih]
      simp
    · by_cases hr : c = '\r'
      · subst hr
        rcases x' with _ | ⟨c2, x''⟩
        · have h1 : splitCRLF ['\r'] = ([], ['\r']) := by decide
          rw [h1]
          simp
        · simp only [List.cons_append] at ih
          by_cases h2 : c2 = '\n'
          · subst h2
            simp only [List.cons_append]
            rw [splitCRLF_cons_cr_nl ('\n' :: (x'' ++ b)) rfl,
              splitCRLF_cons_cr_nl ('\n' :: x'') rfl]
            simpa using ih
          · simp only [List.cons_append]
            rw [splitCRLF_cons_other '\r' _ (by decide) (by simp [h2]),
              splitCRLF_cons_other '\r' (c2 :: x'') (by decide) (by simp [h2])]
            rcases hsp : (splitCRLF (c2 :: x'')).1 with _ | ⟨l, ls⟩
            · have hrem := splitCRLF_no_completed hsp
              rw [consChar_fst_nil '\r' hsp, hrem]
              simp only [List.nil_append, List.cons_append]
              rw [splitCRLF_cons_other '\r' _ (by decide) (by simp [h2])]
            · rw [consChar_fst_cons '\r' hsp, ih, hsp]
              simp [consChar]
      · have hcondL : ¬(c = '\r' ∧ (x' ++ b).head? = some '\n') := by simp [hr]
        have hcondR : ¬(c = '\r' ∧ x'.head? = some '\n') := by simp [hr]
        rw [List.cons_append, splitCRLF_cons_other c _ hn hcondL,
          splitCRLF_cons_other c x' hn hcondR]
        rcases hsp : (splitCRLF x').1 with _ | ⟨l, ls⟩
        · have hrem := splitCRLF_no_completed hsp
          rw [consChar_fst_nil c hsp, hrem]
          simp only [List.nil_append, List.cons_append]
          rw [splitCRLF_cons_other c _ hn hcondL]
        · rw [consChar_fst_cons c hsp, ih, hsp]
          simp [consChar]

theorem splitCRLF_rest_no_newline (s : List Char) : '\n' ∉ (splitCRLF s).2 := by
  induction s with
  | nil => simp [splitCRLF]
  | cons c cs ih =>
    by_cases hn : c = '\n'
    · subst hn; rw [splitCRLF_cons_newline]; exact ih
    · by_cases hr : c = '\r' ∧ cs.head? = some '\n'
      · obtain ⟨hc, hh⟩ := hr
        subst hc
        rw [splitCRLF_cons_cr_nl cs hh]
        exact ih
      · rw [splitCRLF_cons_other c cs hn hr]
        rcases hsp : (splitCRLF cs).1 with _ | ⟨l, ls⟩
        · rw [consChar_fst_nil c hsp]
          simp only [List.mem_cons, not_or]
          exact ⟨fun h => hn h.symm, ih⟩
        · rw [consChar_fst_cons c hsp]
          exact ih

theorem splitCRLF_of_no_newline {l : List Char} (h : '\n' ∉ l) :
    splitCRLF l = ([], l) := by
  induction l with
  | nil => rfl
  | cons c l' ih =>
    simp only [List.mem_cons, not_or] at h
    have hn : ¬c = '\n' := fun hc => h.1 hc.symm
    have hr : ¬(c = '\r' ∧ l'.head? = some '\n') := by
      rintro ⟨-, hh⟩
      rcases l' with _ | ⟨c2, l''⟩
      · simp at hh
      · simp only [List.head?_cons, Option.some.injEq] at hh
        exact h.2 (by simp [hh])
    rw [splitCRLF_cons_other c l' hn hr, ih h.2, consChar_fst_nil c rfl]

theorem splitCRLF_line_term {l : List Char} (t rest : List Char)
    (hl : CleanLine l) (ht : Terminator t) :
    splitCRLF (l ++ (t ++ rest)) = (l :: (splitCRLF rest).1, (splitCRLF rest).2) := by
  induction l with
  | nil =>
    rcases ht with h | h <;> subst h
    · simp only [List.nil_append, List.cons_append, List.nil_append]
      rw [splitCRLF_cons_newline]
    · simp only [List.nil_append, List.cons_append, List.nil_append]
      rw [splitCRLF_cons_cr_nl ('\n' :: rest) rfl, splitCRLF_cons_newline]
  | cons c l' ih =>
    obtain ⟨h1, h2⟩ := hl
    simp only [List.mem_cons, not_or] at h1 h2
    have ih' := ih ⟨h1.2, h2.2⟩
    have hn : ¬c = '\n' := fun hc => h1.1 hc.symm
    have hrr : ¬c = '\r' := fun hc => h2.1 hc.symm
    rw [List.cons_append, splitCRLF_cons_other c _ hn (by simp [hrr]), ih',
      consChar_fst_cons c rfl]

theorem splitCRLF_assemble (ps : List (List Char × List Char)) (frag : List Char)
    (hps : ∀ p ∈ ps, CleanLine p.1 ∧ Terminator p.2) (hfrag : CleanLine frag) :
    splitCRLF (assemble ps frag) = (ps.map Prod.fst, frag) := by
  induction ps with
  | nil =>
    rw [assemble, splitCRLF_of_no_newline hfrag.1]
    rfl
  | cons p ps ih =>
    obtain ⟨l, t⟩ := p
    have hp := hps (l, t) (by simp)
    rw [assemble, splitCRLF_line_term t _ hp.1 hp.2,
      ih (fun q hq => hps q (by simp [hq]))]
    rfl

theorem lbtRun_eq (chunks : List (List Char)) (carry : List Char)
    (h : (splitCRLF carry).1 = []) :
    lbtRun carry chunks =
      (((splitCRLF (carry ++ chunks.flatten)).1).filter (fun l => !l.isEmpty),
        (splitCRLF (carry ++ chunks.flatten)).2) := by
  induction chunks generalizing carry with
  | nil =>
    rw [lbtRun]
    simp only [List.flatten_nil, List.append_nil]
    rw [h, splitCRLF_no_completed h]
    rfl
  | cons chunk chunks ih =>
    rw [lbtRun]
    have hrest : (splitCRLF ((splitCRLF (carry ++ chunk)).2)).1 = [] := by
      rw [splitCRLF_of_no_newline (splitCRLF_rest_no_newline (carry ++ chunk))]
    simp only [lbtTransform]
    rw [ih _ hrest]
    have happ := splitCRLF_append (carry ++ chunk) chunks.flatten
    simp only [List.flatten_cons, ← List.append_assoc]
    rw [happ]
    simp [List.filter_append]

/-- C1 (amended). For a chunk sequence whose concatenation decomposes into
terminator-free lines, each followed by a `\n` or `\r\n` terminator, and a
trailing terminator-free fragment, the transport emits exactly the
**non-empty** lines among them, in order, without their terminators; the
trailing fragment is never emitted.  (The original claim — exactly K
lines — fails because the transformer drops empty lines; see
`c1_counterexample`.) -/
theorem c1_line_framing (chunks : List (List Char))
    (ps : List (List Char × List Char)) (frag : List Char)
    (hps : ∀ p ∈ ps, CleanLine p.1 ∧ Terminator p.2)
    (hfrag : CleanLine frag)
    (hjoin : chunks.flatten = assemble ps frag) :
    lbtEmit chunks = (ps.map Prod.fst).filter (fun l => !l.isEmpty) := by
  unfold lbtEmit
  rw [lbtRun_eq chunks [] rfl]
  simp only [List.nil_append, hjoin,
    splitCRLF_assemble ps frag hps hfrag]

/-- Witness for `c1_line_framing` at a concrete input. -/
theorem c1_line_framing_witness :
    ([['x', '\n', 'y']] : List (List Char)).flatten = assemble [(['x'], ['\n'])] ['y']
    ∧ (∀ p ∈ [(['x'], ['\n'])], CleanLine p.1 ∧ Terminator p.2)
    ∧ CleanLine ['y']
    ∧ lbtEmit [['x', '\n', 'y']] =
        (([(['x'], ['\n'])].map Prod.fst)).filter (fun l => !l.isEmpty) :=
  ⟨by decide, by decide, by decide,
    c1_line_framing [['x', '\n', 'y']] [(['x'], ['\n'])] ['y']
      (by decide) (by decide) (by decide)⟩

/-- C1, original statement, refuted: the concatenation of the single
chunk `"a\n\nb\nc"` contains exactly 3 complete newline-terminated lines
(`"a"`, `""`, `"b"`) followed by the incomplete fragment `"c"`, but the
transport emits only 2 lines (`"a"`, `"b"`), not 3: the empty line is
dropped. -/
theorem c1_counterexample :
    ([['a', '\n', '\n', 'b', '\n', 'c']] : List (List Char)).flatten
        = assemble [(['a'], ['\n']), ([], ['\n']), (['b'], ['\n'])] ['c']
    ∧ (∀ p ∈ [(['a'], ['\n']), (([] : List Char), ['\n']), (['b'], ['\n'])],
        CleanLine p.1 ∧ Terminator p.2)
    ∧ CleanLine ['c']
    ∧ lbtEmit [['a', '\n', '\n', 'b', '\n', 'c']] = [['a'], ['b']]
    ∧ lbtEmit [['a', '\n', '\n', 'b', '\n', 'c']]
        ≠ [(['a'], ['\n']), (([] : List Char), ['\n']), (['b'], ['\n'])].map Prod.fst
    ∧ (lbtEmit [['a', '\n', '\n', 'b', '\n', 'c']]).length ≠ 3 := by
  decide

/-- C9: the transport never emits an empty line; in particular a chunk
consisting only of line terminators produces no output at all. -/
theorem c9_no_empty_lines :
    (∀ (chunks : List (List Char)) (l : List Char),
      l ∈ lbtEmit chunks → l ≠ [])
    ∧ lbtEmit [['\n', '\r', '\n', '\n']] = [] := by
  constructor
  · have key : ∀ (chunks : List (List Char)) (carry l : List Char),
        l ∈ (lbtRun carry chunks).1 → l ≠ [] := by
      intro chunks
      induction chunks with
      | nil => intro carry l h; simp [lbtRun] at h
      | cons chunk chunks ih =>
        intro carry l h
        rw [lbtRun] at h
        rcases List.mem_append.1 h with h1 | h2
        · simp only [lbtTransform, List.mem_filter] at h1
          simpa using h1.2
        · exact ih _ l h2
    exact fun chunks l h => key chunks [] l h
  · decide

/-- Witness for the universally quantified part of `c9_no_empty_lines`. -/
theorem c9_no_empty_lines_witness :
    (['a'] ∈ lbtEmit [['a', '\n']]) ∧ (['a'] : List Char) ≠ [] :=
  ⟨by decide, c9_no_empty_lines.1 [['a', '\n']] ['a'] (by decide)⟩

/-! ## NDJSON line parser: `parseLine` (monitoring.tsx)

`parseLine` trims the line, requires it to be non-empty and wrapped in
braces, decodes it with `JSON.parse`, resolves each of the five vital
fields through its alias pair with `Number(obj.a ?? obj.b)`, and accepts
only if all five values are finite.

The embedding models `JSON.parse` on the subset of JSON the wire
protocol uses: one flat object whose values are decimal numbers (no
exponent part), escape-free strings, `true`, `false` or `null`.  A JS
value that is not a finite number (`NaN`, `±Infinity`) is embedded as
`none : Option ℚ`. -/

/-- A decoded JSON value (flat subset: no nested objects/arrays). -/
inductive JValue where
  | num (q : ℚ)
  | str (s : List Char)
  | bool (b : Bool)
  | null
deriving DecidableEq

/-- A decoded JSON object: field name / value pairs in source order. -/
abbrev JObj := List (List Char × JValue)

/-- JavaScript property access `obj.k` (`none` = `undefined`); later
duplicate keys overwrite earlier ones, hence the last binding wins. -/
def jsGet (o : JObj) (k : List Char) : Option JValue :=
  (o.reverse.find? (fun p => p.1 == k)).map Prod.snd

/-- The JavaScript nullish-coalescing operator `a ?? b` (`none` =
`undefined`; `JValue.null` is also nullish). -/
def nullish (a b : Option JValue) : Option JValue :=
  match a with
  | none => b
  | some JValue.null => b
  | some v => some v

/-- JavaScript whitespace (subset used by the protocol). -/
def isWs (c : Char) : Bool := c == ' ' || c == '\t' || c == '\n' || c == '\r'

/-- `String.prototype.trim`. -/
def trim (s : List Char) : List Char :=
  ((s.dropWhile isWs).reverse.dropWhile isWs).reverse

def skipWs (s : List Char) : List Char := s.dropWhile isWs

/-- Decimal digit run to a natural number. -/
def digitsToNat (ds : List Char) : Nat :=
  ds.foldl (fun a c => a * 10 + (c.toNat - 48)) 0

/-- Parse a JSON number token (`-?digits(.digits)?`, no exponent —
subset) from the front of the input.  The value of `±ds.fs` is the exact
rational `±(ds * 10^|fs| + fs) / 10^|fs|`, built with `mkRat`. -/
def parseNumTok (cs : List Char) : Option (ℚ × List Char) :=
  let sgn : Bool × List Char :=
    match cs with
    | '-' :: t => (true, t)
    | _ => (false, cs)
  let ds := sgn.2.takeWhile Char.isDigit
  let cs2 := sgn.2.dropWhile Char.isDigit
  if ds.isEmpty then none
  else
    match cs2 with
    | '.' :: cs3 =>
      let fs := cs3.takeWhile Char.isDigit
      if fs.isEmpty then none
      else
        let n : Int := digitsToNat ds * 10 ^ fs.length + digitsToNat fs
        some (mkRat (if sgn.1 then -n else n) (10 ^ fs.length),
          cs3.dropWhile Char.isDigit)
    | _ =>
      let n : Int := digitsToNat ds
      some (mkRat (if sgn.1 then -n else n) 1, cs2)

/-- Parse a JSON string token (escape-free subset). -/
def parseJString (cs : List Char) : Option (List Char × List Char) :=
  match cs with
  | '"' :: rest =>
    match rest.dropWhile (fun c => c != '"') with
    | '"' :: rest2 => some (rest.takeWhile (fun c => c != '"'), rest2)
    | _ => none
  | _ => none

/-- Parse one JSON value (flat subset). -/
def parseJValue (cs : List Char) : Option (JValue × List Char) :=
  match cs with
  | '"' :: _ => (parseJString cs).map (fun p => (JValue.str p.1, p.2))
  | 't' :: 'r' :: 'u' :: 'e' :: r => some (JValue.bool true, r)
  | 'f' :: 'a' :: 'l' :: 's' :: 'e' :: r => some (JValue.bool false, r)
  | 'n' :: 'u' :: 'l' :: 'l' :: r => some (JValue.null, r)
  | _ => (parseNumTok cs).map (fun p => (JValue.num p.1, p.2))

/-- Parse one `"key" : value` member. -/
def parseMember (cs : List Char) : Option ((List Char × JValue) × List Char) :=
  match parseJString (skipWs cs) with
  | none => none
  | some (k, r1) =>
    match skipWs r1 with
    | ':' :: r2 => (parseJValue (skipWs r2)).map (fun p => ((k, p.1), p.2))
    | _ => none

/-- Parse a comma-separated member list (fuelled recursion; the fuel is
always at least the input length, and each member consumes at least one
character, so the fuel never runs out on inputs fed by `jsonParse`). -/
def parseMembers : Nat → List Char → Option (JObj × List Char)
  | 0, _ => none
  | fuel + 1, cs =>
    match parseMember cs with
    | none => none
    | some (kv, r) =>
      match skipWs r with
      | ',' :: r2 => (parseMembers fuel r2).map (fun p => (kv :: p.1, p.2))
      | r' => some ([kv], r')

/-- `JSON.parse` on the flat-object subset: succeeds iff the whole input
is a single brace-wrapped object. -/
def jsonParse (cs : List Char) : Option JObj :=
  match skipWs cs with
  | '\x7b' :: r =>
    match skipWs r with
    | '\x7d' :: r2 => if (skipWs r2).isEmpty then some [] else none
    | r' =>
      match parseMembers (r'.length + 1) r' with
      | none => none
      | some (o, rr) =>
        match skipWs rr with
        | '\x7d' :: r3 => if (skipWs r3).isEmpty then some o else none
        | _ => none
  | _ => none

/-- `Number(v)` on a JS value, `none` when the result is not finite:
`Number(undefined) = NaN`; `Number(null) = 0`; booleans map to 0/1;
strings are trimmed and parsed as decimal literals (empty string is 0;
non-numeric strings are `NaN` — subset: hex/exponent forms excluded). -/
def toNumber : Option JValue → Option ℚ
  | none => none
  | some (JValue.num q) => some q
  | some JValue.null => some 0
  | some (JValue.bool b) => some (if b then 1 else 0)
  | some (JValue.str s) =>
    let t := trim s
    if t.isEmpty then some 0
    else
      match parseNumTok t with
      | some (q, []) => some q
      | _ => none

/-- A validated realtime reading (`RealtimeRow` in the source); the
timestamp is the local receipt instant in milliseconds. -/
structure Reading where
  timestamp : Int
  pulse : ℚ
  oxygenSaturation : ℚ
  temperatureC : ℚ
  systolic : ℚ
  diastolic : ℚ
deriving DecidableEq

def kPulse : List Char := "pulse".toList
def kBpm : List Char := "bpm".toList
def kSpo2 : List Char := "spo2".toList
def kOxygenSaturation : List Char := "oxygenSaturation".toList
def kTemp : List Char := "temp".toList
def kTemperatureC : List Char := "temperatureC".toList
def kSys : List Char := "sys".toList
def kSystolic : List Char := "systolic".toList
def kDia : List Char := "dia".toList
def kDiastolic : List Char := "diastolic".toList

/-- `Number(obj.k1 ?? obj.k2)` with the finiteness of the result encoded
as `isSome`: the alias-fallback field resolution of `parseLine`. -/
def resolveField (o : JObj) (k1 k2 : List Char) : Option ℚ :=
  toNumber (nullish (jsGet o k1) (jsGet o k2))

def rPulse (o : JObj) : Option ℚ := resolveField o kPulse kBpm
def rSpo2 (o : JObj) : Option ℚ := resolveField o kSpo2 kOxygenSaturation
def rTemp (o : JObj) : Option ℚ := resolveField o kTemp kTemperatureC
def rSys (o : JObj) : Option ℚ := resolveField o kSys kSystolic
def rDia (o : JObj) : Option ℚ := resolveField o kDia kDiastolic

/-- `parseLine` of monitoring.tsx: trim, brace-shape check, JSON decode,
alias-fallback field resolution, all-or-nothing finiteness check.  `ts`
is the local receipt timestamp `new Date()` taken at entry. -/
def parseLine (ts : Int) (line : List Char) : Option Reading :=
  let s := trim line
  if s.isEmpty || !(s.head? == some '\x7b') || !(s.getLast? == some '\x7d') then none
  else
    match jsonParse s with
    | none => none
    | some obj =>
      match rPulse obj, rSpo2 obj, rTemp obj, rSys obj, rDia obj with
      | some pulse, some spo2, some temp, some sys, some dia =>
        some ⟨ts, pulse, spo2, temp, sys, dia⟩
      | _, _, _, _, _ => none

/-- The five resolved fields of a decoded object, in source order. -/
def resolveAll (o : JObj) :
    Option ℚ × Option ℚ × Option ℚ × Option ℚ × Option ℚ :=
  (rPulse o, rSpo2 o, rTemp o, rSys o, rDia o)

/-- An object carrying the five vitals under the primary spellings. -/
def primaryObj (q1 q2 q3 q4 q5 : ℚ) : JObj :=
  [(kPulse, JValue.num q1), (kSpo2, JValue.num q2), (kTemp, JValue.num q3),
    (kSys, JValue.num q4), (kDia, JValue.num q5)]

/-- An object carrying the five vitals under the fallback spellings. -/
def aliasObj (q1 q2 q3 q4 q5 : ℚ) : JObj :=
  [(kBpm, JValue.num q1), (kOxygenSaturation, JValue.num q2),
    (kTemperatureC, JValue.num q3), (kSystolic, JValue.num q4),
    (kDiastolic, JValue.num q5)]

/-- The spec's first concrete test line, primary spellings. -/
def lineA : List Char :=
  "\x7b\"pulse\":70,\"spo2\":97,\"temp\":36.5,\"sys\":120,\"dia\":80\x7d".toList

/-- The spec's second concrete test line, fallback spellings. -/
def lineB : List Char :=
  "\x7b\"bpm\":70,\"oxygenSaturation\":97,\"temperatureC\":36.5,\"systolic\":120,\"diastolic\":80\x7d".toList

/-- C2: each logical field is resolved by alias fallback with the
primary spelling taking priority (`pulse` before `bpm`, `spo2` before
`oxygenSaturation`, `temp` before `temperatureC`, `sys` before
`systolic`, `dia` before `diastolic`): a present (non-nullish) primary
key wins, an absent primary key falls back to the alias; consequently a
line using the primary spellings and a line using the fallback
spellings with the same five numbers parse to Readings that agree on
all five fields and differ only in timestamp. -/
theorem c2_alias_resolution :
    (∀ (o : JObj) (k1 k2 : List Char) (v : ℚ),
      jsGet o k1 = some (JValue.num v) → resolveField o k1 k2 = some v)
    ∧ (∀ (o : JObj) (k1 k2 : List Char),
      jsGet o k1 = none → resolveField o k1 k2 = toNumber (jsGet o k2))
    ∧ (∀ q1 q2 q3 q4 q5 : ℚ,
      resolveAll (primaryObj q1 q2 q3 q4 q5) = resolveAll (aliasObj q1 q2 q3 q4 q5)
      ∧ resolveAll (primaryObj q1 q2 q3 q4 q5)
          = (some q1, some q2, some q3, some q4, some q5))
    ∧ (∀ ts : Int,
      parseLine ts lineA = parseLine ts lineB
      ∧ (parseLine ts lineA).isSome = true) := by
  refine ⟨?_, ?_, ?_, ?_⟩
  · intro o k1 k2 v h
    simp [resolveField, nullish, toNumber, h]
  · intro o k1 k2 h
    simp [resolveField, nullish, h]
  · intro q1 q2 q3 q4 q5
    exact ⟨rfl, rfl⟩
  · intro ts
    exact ⟨rfl, rfl⟩

/-- Witness for `c2_alias_resolution`: with both spellings present the
primary one wins. -/
theorem c2_alias_resolution_witness :
    jsGet [(kPulse, JValue.num 70), (kBpm, JValue.num 99)] kPulse
        = some (JValue.num 70)
    ∧ resolveField [(kPulse, JValue.num 70), (kBpm, JValue.num 99)] kPulse kBpm
        = some 70 :=
  ⟨by decide, c2_alias_resolution.1 _ kPulse kBpm 70 (by decide)⟩

/-- C3: validation is all-or-nothing.  For a brace-shaped line whose
body decodes to `obj`, the parser yields a Reading iff all five resolved
fields are finite numbers; and any Reading produced carries exactly the
five resolved values and the receipt timestamp. -/
theorem c3_all_or_nothing (ts : Int) (line : List Char) (obj : JObj)
    (hshape : (trim line).head? = some '\x7b'
      ∧ (trim line).getLast? = some '\x7d')
    (hjson : jsonParse (trim line) = some obj) :
    ((∃ r, parseLine ts line = some r) ↔
      (rPulse obj).isSome ∧ (rSpo2 obj).isSome ∧ (rTemp obj).isSome
        ∧ (rSys obj).isSome ∧ (rDia obj).isSome)
    ∧ (∀ r, parseLine ts line = some r →
        r.timestamp = ts ∧ rPulse obj = some r.pulse
          ∧ rSpo2 obj = some r.oxygenSaturation
          ∧ rTemp obj = some r.temperatureC
          ∧ rSys obj = some r.systolic ∧ rDia obj = some r.diastolic) := by
  have hne : (trim line).isEmpty = false := by
    rcases hs : trim line with _ | ⟨c, cs⟩
    · rw [hs] at hshape; simp at hshape
    · rfl
  have hcond : ((trim line).isEmpty || !((trim line).head? == some '\x7b')
      || !((trim line).getLast? == some '\x7d')) = false := by
    rw [hne, hshape.1, hshape.2]
    rfl
  simp only [parseLine, hcond, Bool.false_eq_true, if_false, hjson]
  rcases h1 : rPulse obj with _ | v1 <;>
    rcases h2 : rSpo2 obj with _ | v2 <;>
      rcases h3 : rTemp obj with _ | v3 <;>
        rcases h4 : rSys obj with _ | v4 <;>
          rcases h5 : rDia obj with _ | v5 <;>
            constructor <;>
              simp +contextual [Reading.mk.injEq, eq_comm]

/-- Witness for `c3_all_or_nothing`: a line carrying only `pulse` is
rejected as a whole. -/
theorem c3_all_or_nothing_witness :
    parseLine 0 ("\x7b\"pulse\":70\x7d".toList) = none := by
  have h := (c3_all_or_nothing 0 ("\x7b\"pulse\":70\x7d".toList)
    [(kPulse, JValue.num 70)] (by decide) (by decide)).1
  rcases hp : parseLine 0 ("\x7b\"pulse\":70\x7d".toList) with _ | r
  · rfl
  · exact absurd (h.mp ⟨r, hp⟩).2.1 (by decide)

/-- C4: the parser is a total function into `Option` (never throws): a
trimmed line that is not brace-wrapped is rejected, and a line whose
body fails JSON decoding is rejected. -/
theorem c4_pure_total :
    (∀ (ts : Int) (line : List Char),
      parseLine ts line = none ∨ ∃ r, parseLine ts line = some r)
    ∧ (∀ (ts : Int) (line : List Char),
      ¬((trim line).head? = some '\x7b'
        ∧ (trim line).getLast? = some '\x7d') →
      parseLine ts line = none)
    ∧ (∀ (ts : Int) (line : List Char),
      jsonParse (trim line) = none → parseLine ts line = none) := by
  refine ⟨?_, ?_, ?_⟩
  · intro ts line
    rcases h : parseLine ts line with _ | r
    · exact Or.inl rfl
    · exact Or.inr ⟨r, rfl⟩
  · intro ts line h
    have hcond : ((trim line).isEmpty || !((trim line).head? == some '\x7b')
        || !((trim line).getLast? == some '\x7d')) = true := by
      by_cases hA : (trim line).head? = some '\x7b'
      · by_cases hB : (trim line).getLast? = some '\x7d'
        · exact absurd ⟨hA, hB⟩ h
        · simp [hB]
      · simp [hA]
    simp [parseLine, hcond]
  · intro ts line h
    simp only [parseLine]
    split
    · rfl
    · rw [h]

/-- Witness for `c4_pure_total`: a non-brace-shaped line and a malformed
brace-shaped line are both rejected. -/
theorem c4_pure_total_witness :
    parseLine 0 ("hello".toList) = none
    ∧ parseLine 0 ("\x7bnot json\x7d".toList) = none :=
  ⟨c4_pure_total.2.1 0 ("hello".toList) (by decide),
    c4_pure_total.2.2 0 ("\x7bnot json\x7d".toList) (by decide)⟩

/-! ## Ingestion loop: `readLoop` state transitions (monitoring.tsx)

The loop body for one accepted Reading is, in source order:

1. autostart — `if (session && !isMonitoring) { setIsMonitoring(true);
   setStartedFromDevice(true); }`;
2. buffer append — `setRealtime(prev => [...prev, reading].slice(-200))`;
3. throttled forward — `if (session && now - lastSentRef.current >= 1000)
   { lastSentRef.current = now; await addData(session.id, clamped); }`
   (the `addData` failure is swallowed; we log the invocation).

`clamp(n, min, max) = Math.max(min, Math.min(max, n))`.

A semantic point that matters for the autostart branch: `readLoop` is an
arrow function whose `session` and `isMonitoring` are `useState` values
captured by the closure in the render in which `handleConnect` invoked
it; they stay frozen for the whole life of that loop invocation.  By
contrast `lastSentRef` is a `useRef` (live mutable cell), and the
`setRealtime`/`setIsMonitoring`/`setStartedFromDevice` calls write the
live state (the buffer update even uses a functional updater).  The
faithful body is therefore `processReadingCaptured`, which takes the
captured `session`/`isMonitoring` as separate parameters;
`processReading` is its specialization to the case where the captured
values agree with the live state fields — always true of `session`
during a loop's life (connect requires a session and reset requires a
prior disconnect), and true of `isMonitoring` as captured at connect
(`processReadingCaptured_live` states the specialization). -/

/-- `clamp` of monitoring.tsx. -/
def clamp (n lo hi : ℚ) : ℚ := max lo (min hi n)

/-- One record forwarded to `sessionService.addData`. -/
structure SentRecord where
  sessionId : String
  pulse : ℚ
  oxygenSaturation : ℚ
  temperatureC : ℚ
  systolic : ℚ
  diastolic : ℚ
deriving DecidableEq

/-- The payload of `sessionService.addData(session.id, {...})`: the five
fields clamped to their clinically plausible ranges. -/
def clampRecord (sid : String) (r : Reading) : SentRecord :=
  ⟨sid, clamp r.pulse 20 240, clamp r.oxygenSaturation 50 100,
    clamp r.temperatureC 30 45, clamp r.systolic 50 260,
    clamp r.diastolic 30 200⟩

/-- The mutable state read and written by the loop/UI controller pair:
the live buffer, the throttle timestamp `lastSentRef`, the two
monitoring flags, the current session (id) and the log of persistence
forwards issued so far. -/
structure LoopState where
  realtime : List Reading
  lastSent : Int
  isMonitoring : Bool
  startedFromDevice : Bool
  session : Option String
  sent : List SentRecord
deriving DecidableEq

/-- `[...prev, reading].slice(-200)`: bounded FIFO append. -/
def ringAppend (prev : List Reading) (r : Reading) : List Reading :=
  (prev ++ [r]).rtake 200

/-- Autostart step of the loop body. -/
def autoStartStep (st : LoopState) : LoopState :=
  if st.session.isSome && !st.isMonitoring then
    { st with isMonitoring := true, startedFromDevice := true }
  else st

/-- Buffer-append step of the loop body. -/
def bufferStep (st : LoopState) (reading : Reading) : LoopState :=
  { st with realtime := ringAppend st.realtime reading }

/-- Throttled persistence-forward step of the loop body.  The
last-sent timestamp is updated at forward time, together with the
`addData` invocation. -/
def forwardStep (st : LoopState) (reading : Reading) (now : Int) : LoopState :=
  match st.session with
  | some sid =>
    if 1000 ≤ now - st.lastSent then
      { st with lastSent := now, sent := st.sent ++ [clampRecord sid reading] }
    else st
  | none => st

/-- Autostart branch as executed by the source: the condition reads the
closure-captured `session`/`isMonitoring`, the assignment writes the
live flags. -/
def autoStartStepCaptured (sessionC : Option String) (isMonitoringC : Bool)
    (st : LoopState) : LoopState :=
  if sessionC.isSome && !isMonitoringC then
    { st with isMonitoring := true, startedFromDevice := true }
  else st

/-- Forward branch as executed by the source: the guard and the session
id read the closure-captured `session`; `lastSentRef` is a live ref. -/
def forwardStepCaptured (sessionC : Option String) (st : LoopState)
    (reading : Reading) (now : Int) : LoopState :=
  match sessionC with
  | some sid =>
    if 1000 ≤ now - st.lastSent then
      { st with lastSent := now, sent := st.sent ++ [clampRecord sid reading] }
    else st
  | none => st

/-- The `readLoop` body for one accepted Reading arriving at local clock
`now`, with the closure-captured render values passed explicitly. -/
def processReadingCaptured (sessionC : Option String) (isMonitoringC : Bool)
    (st : LoopState) (reading : Reading) (now : Int) : LoopState :=
  forwardStepCaptured sessionC
    (bufferStep (autoStartStepCaptured sessionC isMonitoringC st) reading)
    reading now

/-- The `readLoop` body for one accepted Reading arriving at local
clock `now`, in the case where the captured render values agree with
the live state fields (see `processReadingCaptured_live`). -/
def processReading (st : LoopState) (reading : Reading) (now : Int) : LoopState :=
  forwardStep (bufferStep (autoStartStep st) reading) reading now

/-- The loop over a burst of accepted Readings with their arrival
times. -/
def runReadings (st : LoopState) (prs : List (Reading × Int)) : LoopState :=
  prs.foldl (fun s pr => processReading s pr.1 pr.2) st

/-- `handleStart` (state part): an explicit operator start clears the
started-from-device marker and activates monitoring. -/
def handleStart (st : LoopState) : LoopState :=
  { st with startedFromDevice := false, isMonitoring := true }

/-! Component lemmas for the three steps. -/

theorem autoStartStep_fields (st : LoopState) :
    (autoStartStep st).realtime = st.realtime
    ∧ (autoStartStep st).lastSent = st.lastSent
    ∧ (autoStartStep st).session = st.session
    ∧ (autoStartStep st).sent = st.sent := by
  unfold autoStartStep
  split <;> exact ⟨rfl, rfl, rfl, rfl⟩

theorem bufferStep_fields (st : LoopState) (r : Reading) :
    (bufferStep st r).lastSent = st.lastSent
    ∧ (bufferStep st r).session = st.session
    ∧ (bufferStep st r).sent = st.sent
    ∧ (bufferStep st r).isMonitoring = st.isMonitoring
    ∧ (bufferStep st r).startedFromDevice = st.startedFromDevice := by
  unfold bufferStep
  exact ⟨rfl, rfl, rfl, rfl, rfl⟩

theorem forwardStep_fields (st : LoopState) (r : Reading) (now : Int) :
    (forwardStep st r now).realtime = st.realtime
    ∧ (forwardStep st r now).session = st.session
    ∧ (forwardStep st r now).isMonitoring = st.isMonitoring
    ∧ (forwardStep st r now).startedFromDevice = st.startedFromDevice := by
  unfold forwardStep
  split
  · split <;> exact ⟨rfl, rfl, rfl, rfl⟩
  · exact ⟨rfl, rfl, rfl, rfl⟩

theorem forwardStep_send {st : LoopState} {sid : String} (r : Reading)
    (now : Int) (hs : st.session = some sid)
    (ht : 1000 ≤ now - st.lastSent) :
    (forwardStep st r now).sent = st.sent ++ [clampRecord sid r]
    ∧ (forwardStep st r now).lastSent = now := by
  simp only [forwardStep, hs]
  rw [if_pos ht]
  exact ⟨rfl, rfl⟩

theorem forwardStep_noSend {st : LoopState} (r : Reading) (now : Int)
    (h : ∀ sid, st.session = some sid → ¬(1000 ≤ now - st.lastSent)) :
    (forwardStep st r now).sent = st.sent
    ∧ (forwardStep st r now).lastSent = st.lastSent := by
  rcases hs : st.session with _ | sid
  · simp [forwardStep, hs]
  · simp only [forwardStep, hs]
    rw [if_neg (h sid hs)]
    exact ⟨rfl, rfl⟩

theorem processReading_session (st : LoopState) (r : Reading) (now : Int) :
    (processReading st r now).session = st.session := by
  unfold processReading
  rw [(forwardStep_fields _ _ _).2.1, (bufferStep_fields _ _).2.1,
    (autoStartStep_fields _).2.2.1]

theorem processReading_send {st : LoopState} {sid : String} (r : Reading)
    (now : Int) (hs : st.session = some sid)
    (ht : 1000 ≤ now - st.lastSent) :
    (processReading st r now).sent = st.sent ++ [clampRecord sid r]
    ∧ (processReading st r now).lastSent = now := by
  unfold processReading
  have h1 : (bufferStep (autoStartStep st) r).session = some sid := by
    rw [(bufferStep_fields _ _).2.1, (autoStartStep_fields _).2.2.1, hs]
  have h2 : (bufferStep (autoStartStep st) r).lastSent = st.lastSent := by
    rw [(bufferStep_fields _ _).1, (autoStartStep_fields _).2.1]
  have h3 := @forwardStep_send (bufferStep (autoStartStep st) r) sid r now h1
    (by rw [h2]; exact ht)
  rw [h3.1, h3.2, (bufferStep_fields _ _).2.2.1, (autoStartStep_fields _).2.2.2]
  exact ⟨rfl, rfl⟩

theorem processReading_noSend {st : LoopState} (r : Reading) (now : Int)
    (h : ¬(1000 ≤ now - st.lastSent)) :
    (processReading st r now).sent = st.sent
    ∧ (processReading st r now).lastSent = st.lastSent := by
  unfold processReading
  have h2 : (bufferStep (autoStartStep st) r).lastSent = st.lastSent := by
    rw [(bufferStep_fields _ _).1, (autoStartStep_fields _).2.1]
  have h3 := @forwardStep_noSend (bufferStep (autoStartStep st) r) r now
    (fun _ _ => by rw [h2]; exact h)
  rw [h3.1, h3.2, h2, (bufferStep_fields _ _).2.2.1,
    (autoStartStep_fields _).2.2.2]
  exact ⟨rfl, rfl⟩

theorem runReadings_noSend (prs : List (Reading × Int)) (st : LoopState)
    (h : ∀ pr ∈ prs, ¬(1000 ≤ pr.2 - st.lastSent)) :
    (runReadings st prs).sent = st.sent
    ∧ (runReadings st prs).lastSent = st.lastSent := by
  induction prs generalizing st with
  | nil => exact ⟨rfl, rfl⟩
  | cons pr prs ih =>
    have hstep := @processReading_noSend st pr.1 pr.2
      (h pr (by simp))
    have hrest := ih (processReading st pr.1 pr.2) (by
      intro q hq
      rw [hstep.2]
      exact h q (by simp [hq]))
    unfold runReadings at hrest ⊢
    rw [List.foldl_cons]
    exact ⟨hrest.1.trans hstep.1, hrest.2.trans hstep.2⟩

theorem bufferStep_realtime (st : LoopState) (r : Reading) :
    (bufferStep st r).realtime = ringAppend st.realtime r := by
  unfold bufferStep
  rfl

theorem processReading_realtime (st : LoopState) (r : Reading) (now : Int) :
    (processReading st r now).realtime = ringAppend st.realtime r := by
  unfold processReading
  rw [(forwardStep_fields _ _ _).1, bufferStep_realtime,
    (autoStartStep_fields _).1]

theorem processReading_none {st : LoopState} (r : Reading) (now : Int)
    (hs : st.session = none) :
    (processReading st r now).sent = st.sent
    ∧ (processReading st r now).realtime = ringAppend st.realtime r
    ∧ (processReading st r now).lastSent = st.lastSent := by
  have hs' : (bufferStep (autoStartStep st) r).session = none := by
    rw [(bufferStep_fields _ _).2.1, (autoStartStep_fields _).2.2.1, hs]
  refine ⟨?_, processReading_realtime st r now, ?_⟩
  · unfold processReading
    simp only [forwardStep, hs']
    rw [(bufferStep_fields _ _).2.2.1, (autoStartStep_fields _).2.2.2]
  · unfold processReading
    simp only [forwardStep, hs']
    rw [(bufferStep_fields _ _).1, (autoStartStep_fields _).2.1]

theorem forwardStepCaptured_flags (sessionC : Option String) (st : LoopState)
    (r : Reading) (now : Int) :
    (forwardStepCaptured sessionC st r now).isMonitoring = st.isMonitoring
    ∧ (forwardStepCaptured sessionC st r now).startedFromDevice
        = st.startedFromDevice := by
  rcases sessionC with _ | sid
  · exact ⟨rfl, rfl⟩
  · simp only [forwardStepCaptured]
    by_cases ht : 1000 ≤ now - st.lastSent
    · rw [if_pos ht]
      exact ⟨rfl, rfl⟩
    · rw [if_neg ht]
      exact ⟨rfl, rfl⟩

theorem autoStartStepCaptured_live (st : LoopState) :
    autoStartStepCaptured st.session st.isMonitoring st = autoStartStep st := rfl

theorem forwardStepCaptured_live (sessionC : Option String) (st : LoopState)
    (r : Reading) (now : Int) (h : sessionC = st.session) :
    forwardStepCaptured sessionC st r now = forwardStep st r now := by
  subst h
  rfl

/-- When the captured render values coincide with the live state fields,
the captured loop body is exactly `processReading`. -/
theorem processReadingCaptured_live (st : LoopState) (r : Reading) (now : Int) :
    processReadingCaptured st.session st.isMonitoring st r now
      = processReading st r now := by
  unfold processReadingCaptured processReading
  rw [autoStartStepCaptured_live]
  exact forwardStepCaptured_live st.session _ r now
    (((bufferStep_fields _ _).2.1.trans (autoStartStep_fields _).2.2.1).symm)

/-! Ring-buffer lemmas (`slice(-200)` is `List.rtake 200`). -/

theorem take_append_take {α : Type} (u v : List α) (n : Nat) :
    (u ++ v.take n).take n = (u ++ v).take n := by
  rw [List.take_append_eq_append_take, List.take_append_eq_append_take,
    List.take_take, Nat.min_def, if_pos (Nat.sub_le n u.length)]

theorem rtake_append_rtake {α : Type} (a c : List α) (n : Nat) :
    (a.rtake n ++ c).rtake n = (a ++ c).rtake n := by
  have h1 : (a.rtake n).reverse = a.reverse.take n := by
    rw [List.rtake_eq_reverse_take_reverse, List.reverse_reverse]
  have h2 : (a.rtake n ++ c).rtake n
      = ((c.reverse ++ a.reverse.take n).take n).reverse := by
    rw [List.rtake_eq_reverse_take_reverse, List.reverse_append, h1]
  have h3 : (a ++ c).rtake n = ((c.reverse ++ a.reverse).take n).reverse := by
    rw [List.rtake_eq_reverse_take_reverse, List.reverse_append]
  rw [h2, h3, take_append_take]

theorem ringAppend_getLast (prev : List Reading) (r : Reading) :
    (ringAppend prev r).getLast? = some r := by
  unfold ringAppend
  rw [List.getLast?_eq_head?_reverse]
  have h1 : ((prev ++ [r]).rtake 200).reverse = (prev ++ [r]).reverse.take 200 := by
    rw [List.rtake_eq_reverse_take_reverse, List.reverse_reverse]
  rw [h1, List.reverse_append]
  show ((r :: prev.reverse).take (199 + 1)).head? = some r
  rw [List.take_succ_cons, List.head?_cons]

/-- C5: the session buffer is a bounded FIFO ring: every append leaves
at most 200 entries; folding appends over any reading sequence leaves
exactly the most recent 200 in arrival order; in particular 250 appends
to the empty buffer leave exactly the last 200, oldest first. -/
theorem c5_ring_buffer :
    (∀ (prev : List Reading) (r : Reading), (ringAppend prev r).length ≤ 200)
    ∧ (∀ rs : List Reading, List.foldl ringAppend [] rs = rs.rtake 200)
    ∧ (∀ rs : List Reading, rs.length = 250 →
        List.foldl ringAppend [] rs = rs.drop 50) := by
  have hgen : ∀ rs : List Reading, List.foldl ringAppend [] rs = rs.rtake 200 := by
    intro rs
    induction rs using List.reverseRecOn with
    | nil => simp
    | append_singleton rs r ih =>
      rw [List.foldl_append, List.foldl_cons, List.foldl_nil, ih]
      show (rs.rtake 200 ++ [r]).rtake 200 = (rs ++ [r]).rtake 200
      exact rtake_append_rtake rs [r] 200
  refine ⟨?_, hgen, ?_⟩
  · intro prev r
    unfold ringAppend List.rtake
    simp only [List.length_drop]
    omega
  · intro rs h
    rw [hgen rs, List.rtake, h]

/-- Witness for the 250-element part of `c5_ring_buffer`. -/
theorem c5_ring_buffer_witness :
    List.foldl ringAppend []
        (List.replicate 250 (⟨0, 0, 0, 0, 0, 0⟩ : Reading))
      = (List.replicate 250 (⟨0, 0, 0, 0, 0, 0⟩ : Reading)).drop 50 :=
  c5_ring_buffer.2.2 _ (by simp)

/-- C6: a Reading is forwarded to persistence only when at least 1000 ms
have elapsed since the last forward, with the last-sent timestamp
updated at forward time; consequently a burst of accepted Readings
inside a 200 ms window, with the previous forward at least 1000 ms in
the past, produces exactly one `addData` invocation. -/
theorem c6_throttle :
    (∀ (st : LoopState) (r : Reading) (now : Int),
      (processReading st r now).sent ≠ st.sent →
        1000 ≤ now - st.lastSent ∧ (processReading st r now).lastSent = now)
    ∧ (∀ (st : LoopState) (sid : String) (T : Int)
        (prs : List (Reading × Int)),
      st.session = some sid →
      prs ≠ [] →
      (∀ pr ∈ prs, T ≤ pr.2 ∧ pr.2 ≤ T + 200) →
      st.lastSent + 1000 ≤ T →
      (runReadings st prs).sent.length = st.sent.length + 1) := by
  constructor
  · intro st r now hne
    by_cases ht : 1000 ≤ now - st.lastSent
    · rcases hs : st.session with _ | sid
      · exact absurd (processReading_none r now hs).1 hne
      · exact ⟨ht, (processReading_send r now hs ht).2⟩
    · exact absurd (processReading_noSend r now ht).1 hne
  · intro st sid T prs hs hne hall hgap
    rcases prs with _ | ⟨p, rest⟩
    · exact absurd rfl hne
    obtain ⟨hT1, hT2⟩ := hall p (by simp)
    have hsend := @processReading_send st sid p.1 p.2 hs (by omega)
    have hlast := hsend.2
    have hnos := runReadings_noSend rest (processReading st p.1 p.2) (by
      intro q hq
      obtain ⟨hq1, hq2⟩ := hall q (by simp [hq])
      rw [hlast]
      omega)
    show (runReadings (processReading st p.1 p.2) rest).sent.length
      = st.sent.length + 1
    rw [hnos.1, hsend.1]
    simp

/-- Witness for `c6_throttle`: ten Readings in a 180 ms window produce
one forward, not ten. -/
theorem c6_throttle_witness :
    (runReadings ⟨[], 0, false, false, some "s", []⟩
      [(⟨0, 70, 97, 36, 120, 80⟩, 2000), (⟨0, 70, 97, 36, 120, 80⟩, 2020),
        (⟨0, 70, 97, 36, 120, 80⟩, 2040), (⟨0, 70, 97, 36, 120, 80⟩, 2060),
        (⟨0, 70, 97, 36, 120, 80⟩, 2080), (⟨0, 70, 97, 36, 120, 80⟩, 2100),
        (⟨0, 70, 97, 36, 120, 80⟩, 2120), (⟨0, 70, 97, 36, 120, 80⟩, 2140),
        (⟨0, 70, 97, 36, 120, 80⟩, 2160), (⟨0, 70, 97, 36, 120, 80⟩, 2180)]).sent.length
      = (⟨[], 0, false, false, some "s", []⟩ : LoopState).sent.length + 1 :=
  c6_throttle.2 ⟨[], 0, false, false, some "s", []⟩ "s" 2000 _
    rfl (by decide) (by decide) (by decide)

/-- C7: every forwarded record carries the five fields clamped to their
clinically plausible ranges, while the live buffer receives the raw
Reading unchanged (it becomes the last buffer entry). -/
theorem c7_clamping (st : LoopState) (r : Reading) (now : Int) (sid : String)
    (hs : st.session = some sid) (ht : 1000 ≤ now - st.lastSent) :
    (processReading st r now).sent
        = st.sent ++ [⟨sid, clamp r.pulse 20 240, clamp r.oxygenSaturation 50 100,
            clamp r.temperatureC 30 45, clamp r.systolic 50 260,
            clamp r.diastolic 30 200⟩]
    ∧ (processReading st r now).realtime = ringAppend st.realtime r
    ∧ (processReading st r now).realtime.getLast? = some r := by
  refine ⟨(processReading_send r now hs ht).1, processReading_realtime st r now, ?_⟩
  rw [processReading_realtime st r now]
  exact ringAppend_getLast st.realtime r

/-- Witness for `c7_clamping`: a pulse of 300 is persisted as 240 while
the buffer keeps 300. -/
theorem c7_clamping_witness :
    (processReading ⟨[], 0, false, false, some "s", []⟩
        ⟨0, 300, 97, 36, 120, 80⟩ 2000).sent
      = [⟨"s", 240, 97, 36, 120, 80⟩]
    ∧ (processReading ⟨[], 0, false, false, some "s", []⟩
        ⟨0, 300, 97, 36, 120, 80⟩ 2000).realtime.getLast?
      = some ⟨0, 300, 97, 36, 120, 80⟩ := by
  have h := c7_clamping ⟨[], 0, false, false, some "s", []⟩
    ⟨0, 300, 97, 36, 120, 80⟩ 2000 "s" rfl (by decide)
  refine ⟨?_, h.2.2⟩
  rw [h.1]
  decide

/-- C8: `readLoop`'s autostart condition reads the closure-captured
`session`/`isMonitoring` frozen at connect time.  With captured values
"session present, monitoring off" the branch fires on every accepted
Reading, whatever the live flags: the first part of the claim (genuine
autostart on the first Reading) holds, but after an explicit operator
start — `handleStart`, which activates monitoring and clears the
started-from-device marker — the next accepted Reading still runs the
autostart branch and re-sets the marker to `true`, contradicting the
claim's second part (and defeating the `setStartedFromDevice(false)` in
`handleStart` together with the provenance badge it governs). -/
theorem c8_autostart_code_bug :
    (∀ (st : LoopState) (sid : String) (r : Reading) (now : Int),
      (processReadingCaptured (some sid) false st r now).isMonitoring = true
      ∧ (processReadingCaptured (some sid) false st r now).startedFromDevice
          = true)
    ∧ (handleStart ⟨[], 0, false, false, some "s", []⟩).startedFromDevice = false
    ∧ (processReadingCaptured (some "s") false
        (handleStart ⟨[], 0, false, false, some "s", []⟩)
        ⟨0, 70, 97, 36, 120, 80⟩ 0).startedFromDevice = true := by
  refine ⟨?_, rfl, by decide⟩
  intro st sid r now
  unfold processReadingCaptured
  rw [(forwardStepCaptured_flags _ _ _ _).1, (forwardStepCaptured_flags _ _ _ _).2,
    (bufferStep_fields _ _).2.2.2.1, (bufferStep_fields _ _).2.2.2.2]
  unfold autoStartStepCaptured
  have hc : ((some sid).isSome && !false) = true := rfl
  rw [if_pos hc]
  exact ⟨rfl, rfl⟩

/-- C10: with no session, an accepted Reading is still appended to the
live buffer but persistence is never invoked, no matter how much time
has elapsed since the last forward. -/
theorem c10_no_session (st : LoopState) (r : Reading) (now : Int)
    (hs : st.session = none) :
    (processReading st r now).sent = st.sent
    ∧ (processReading st r now).realtime = ringAppend st.realtime r :=
  ⟨(processReading_none r now hs).1, (processReading_none r now hs).2.1⟩

/-- Witness for `c10_no_session`: no forward even 10^8 ms after the last
one. -/
theorem c10_no_session_witness :
    (processReading ⟨[], 0, false, false, none, []⟩
        ⟨0, 70, 97, 36, 120, 80⟩ 100000000).sent = []
    ∧ (processReading ⟨[], 0, false, false, none, []⟩
        ⟨0, 70, 97, 36, 120, 80⟩ 100000000).realtime
      = ringAppend [] ⟨0, 70, 97, 36, 120, 80⟩ :=
  c10_no_session ⟨[], 0, false, false, none, []⟩
    ⟨0, 70, 97, 36, 120, 80⟩ 100000000 rfl

end Hemo
